import Mathlib

/-
  Verification development for the ranch-ledger bot (src/index.js).

  The JavaScript source is shallowly embedded: each regex-based extractor is
  translated into an explicit scanner over lists of characters with the same
  leftmost-match and backtracking behaviour as the source regex; the sqlite
  queries are modelled as pure functions over an in-memory list of rows; the
  message handler, slash-command handlers and the weekly scheduler become
  explicit state-passing functions.  JavaScript numbers that stay integral are
  modelled as Nat or Int; the REAL-valued price column is modelled as the exact
  rationals (NaN is Option.none at the point where it can arise).
-/

namespace Ranch

/-! ### Character helpers (ASCII, as used by the source regexes) -/

/-- ASCII lower-casing, as `String.prototype.toLowerCase` acts on the ASCII
letters that the source patterns can capture. -/
def lowerAscii (c : Char) : Char :=
  if 'A' ≤ c ∧ c ≤ 'Z' then Char.ofNat (c.toNat + 32) else c

/-- JavaScript regex word character `[A-Za-z0-9_]`, used for boundaries. -/
def isWordC (c : Char) : Bool := c.isAlphanum || c = '_'

/-- Numeric value of a digit run, as `Number()` on an all-digit string. -/
def natOfDigits (l : List Char) : Nat :=
  l.foldl (fun n c => n * 10 + (c.toNat - '0'.toNat)) 0

/-- Case-insensitive literal match of `pat` (given lower-case) at the head. -/
def startsWithCI : List Char → List Char → Bool
  | [], _ => true
  | _ :: _, [] => false
  | p :: ps, c :: cs => (lowerAscii c = p) && startsWithCI ps cs

/-- A word boundary holds after the match if no word character follows. -/
def noWordAhead : List Char → Bool
  | [] => true
  | c :: _ => !(isWordC c)

/-- A word boundary holds before a position given the previous character. -/
def boundaryBefore : Option Char → Bool
  | none => true
  | some c => !(isWordC c)

/-- Leftmost-match scan: try the matcher at every start position
(including the empty suffix, as a regex engine does). -/
def firstMatch (f : List Char → Option α) : List Char → Option α
  | [] => f []
  | c :: rest =>
    match f (c :: rest) with
    | some r => some r
    | none => firstMatch f rest

/-- Leftmost-match scan for matchers that inspect the preceding character
(for the source patterns that open with a word boundary). -/
def firstMatchB (f : Option Char → List Char → Option α) :
    Option Char → List Char → Option α
  | prev, [] => f prev []
  | prev, c :: rest =>
    match f prev (c :: rest) with
    | some r => some r
    | none => firstMatchB f (some c) rest

/-- The whitespace collapsing of `text.replace(/\s+/g, " ")`. -/
def collapseWs : List Char → List Char
  | [] => []
  | [c] => [if c.isWhitespace then ' ' else c]
  | a :: b :: rest =>
    if a.isWhitespace && b.isWhitespace then collapseWs (b :: rest)
    else (if a.isWhitespace then ' ' else a) :: collapseWs (b :: rest)

/-- `String.prototype.trim`. -/
def trimWs (l : List Char) : List Char :=
  (((l.dropWhile Char.isWhitespace).reverse).dropWhile Char.isWhitespace).reverse

/-- `String.prototype.trim`, on strings (structural, over the char list). -/
def trimStr (s : String) : String := String.mk (trimWs s.toList)

/-- All maximal digit runs of the text, as numbers: `text.match(/\d+/g)`. -/
def digitRunsAux : List Char → List Char → List Nat
  | acc, [] => if acc = [] then [] else [natOfDigits acc.reverse]
  | acc, c :: rest =>
    if c.isDigit then digitRunsAux (c :: acc) rest
    else if acc = [] then digitRunsAux [] rest
    else natOfDigits acc.reverse :: digitRunsAux [] rest

def digitRuns (l : List Char) : List Nat := digitRunsAux [] l

/-! ### extractDiscordId — `/<@!?(\d{17,20})>/` -/

/-- Digit-and-bracket part of the mention pattern, after the `<@` marker and
the optional `!`: the digit class is greedy, and since the digits are
consecutive the position matches exactly when the maximal digit run has
length 17–20 and is followed by a closing angle bracket. -/
def mentionTail (r : List Char) : Option String :=
  if 17 ≤ (r.takeWhile Char.isDigit).length ∧ (r.takeWhile Char.isDigit).length ≤ 20 then
    match r.drop (r.takeWhile Char.isDigit).length with
    | '>' :: _ => some (String.mk (r.takeWhile Char.isDigit))
    | _ => none
  else none

/-- Match of the mention pattern anchored at the current position. -/
def mentionAt (l : List Char) : Option String :=
  match l with
  | '<' :: '@' :: rest =>
    mentionTail (if rest.head? = some '!' then rest.tail else rest)
  | _ => none

/-- `extractDiscordId` of the source: first mention token in the text. -/
def extractDiscordId (s : String) : Option String :=
  firstMatch mentionAt s.toList

/-! ### extractActorName — bracketed or piped name -/

/-- Match of `/\[([^\]]{1,64})\]/` anchored at the current position. -/
def bracketAt (l : List Char) : Option (List Char) :=
  match l with
  | '[' :: rest =>
    let body := rest.takeWhile (fun c => c ≠ ']')
    if 1 ≤ body.length ∧ body.length ≤ 64 then
      match rest.drop body.length with
      | ']' :: _ => some body
      | _ => none
    else none
  | _ => none

/-- Match of the anchored `/^([^|\n]{1,64})\s*\|/`: the capture is the longest
prefix (at most 64 characters) of non-bar, non-newline characters; the gap
between the capture and the first bar must be whitespace only (this gap may
itself contain newlines, which the whitespace class accepts even though the
capture class rejects them). -/
def pipeNameAt (l : List Char) : Option (List Char) :=
  let pre := l.takeWhile (fun c => c ≠ '|' ∧ c ≠ '\n')
  let j := min pre.length 64
  if pre.length = 0 then none
  else if pre.length ≤ 64 ∨ (pre.drop 64).all Char.isWhitespace then
    match (l.drop j).dropWhile Char.isWhitespace with
    | '|' :: _ => some (pre.take j)
    | _ => none
  else none

/-- `extractActorName` of the source.  The anchored bracket pattern is
subsumed by the unanchored one, so a single leftmost bracket scan suffices. -/
def extractActorName (s : String) : Option String :=
  if s = "" then none else
  match firstMatch bracketAt s.toList with
  | some b => some (String.mk (trimWs b))
  | none =>
    match pipeNameAt s.toList with
    | some p => some (String.mk (trimWs p))
    | none => none

/-! ### extractRanchId — `/ranch\s*id\s*[:#]?\s*(\d+)/i` or `/\branch\s*(\d+)/i` -/

def ranchIdAt1 (l : List Char) : Option Nat :=
  if startsWithCI "ranch".toList l then
    let r1 := (l.drop 5).dropWhile Char.isWhitespace
    if startsWithCI "id".toList r1 then
      let r2 := (r1.drop 2).dropWhile Char.isWhitespace
      let r3 := if r2.head? = some ':' ∨ r2.head? = some '#' then r2.tail else r2
      let r4 := r3.dropWhile Char.isWhitespace
      let ds := r4.takeWhile Char.isDigit
      if ds = [] then none else some (natOfDigits ds)
    else none
  else none

def ranchIdAt2 (prev : Option Char) (l : List Char) : Option Nat :=
  if boundaryBefore prev ∧ startsWithCI "ranch".toList l then
    let r1 := (l.drop 5).dropWhile Char.isWhitespace
    let ds := r1.takeWhile Char.isDigit
    if ds = [] then none else some (natOfDigits ds)
  else none

def extractRanchIdL (l : List Char) : Option Nat :=
  match firstMatch ranchIdAt1 l with
  | some n => some n
  | none => firstMatchB ranchIdAt2 none l

def extractRanchId (s : String) : Option Nat := extractRanchIdL s.toList

/-! ### extractItemAndAmount -/

inductive ItemType
  | eggs | milk | herd_buy | herd_sell
deriving DecidableEq, Repr

/-- Candidate event as produced by `extractItemAndAmount`.  The value is the
parsed price; `Option.none` stands for the JavaScript NaN that `Number`
returns on a malformed price string. -/
structure Item where
  item_type : ItemType
  amount : Nat
  value : Option ℚ
  subtype : Option String
deriving DecidableEq, Repr

/-- Match of `/(\d+)\s*(eggs?|milk)\b/i` anchored at the current position:
a digit run, optional whitespace, then the item word with a trailing word
boundary.  Backtracking into the digit or whitespace runs can never succeed,
so greedy runs are exact.  Returns the amount and the matched item word. -/
def nearAt (l : List Char) : Option (Nat × List Char) :=
  let ds := l.takeWhile Char.isDigit
  if ds = [] then none else
  let r2 := (l.drop ds.length).dropWhile Char.isWhitespace
  if startsWithCI "eggs".toList r2 ∧ noWordAhead (r2.drop 4) then
    some (natOfDigits ds, r2.take 4)
  else if startsWithCI "egg".toList r2 ∧ noWordAhead (r2.drop 3) then
    some (natOfDigits ds, r2.take 3)
  else if startsWithCI "milk".toList r2 ∧ noWordAhead (r2.drop 4) then
    some (natOfDigits ds, r2.take 4)
  else none

/-- `Number()` of a string made of digits and dots (commas already stripped):
the value when the string is a decimal literal, `Option.none` for NaN, and 0
for the empty string. -/
def jsDecimal (l : List Char) : Option ℚ :=
  if l = [] then some 0
  else
    let ip := l.takeWhile Char.isDigit
    match l.drop ip.length with
    | [] => some (natOfDigits ip)
    | '.' :: rest =>
      let fp := rest.takeWhile Char.isDigit
      if rest.drop fp.length ≠ [] then none
      else if ip = [] ∧ fp = [] then none
      else some (mkRat (natOfDigits ip * 10 ^ fp.length + natOfDigits fp) (10 ^ fp.length))
    | _ => none

/-- Result of the herd pattern. -/
structure HerdM where
  isBuy : Bool
  cnt : Nat
  animal : String
  value : Option ℚ
deriving DecidableEq, Repr

/-- Match of `/\b(bought|sold)\b\s+(\d+)\s+([A-Za-z]+)\s+for\s+\$?([\d,\.]+)\$?/i`
anchored at the current position.  All greedy runs are followed by literals of
a different character class, so the match is deterministic. -/
def herdAt (prev : Option Char) (l : List Char) : Option HerdM :=
  if boundaryBefore prev then
    let act : Option (Bool × Nat) :=
      if startsWithCI "bought".toList l then some (true, 6)
      else if startsWithCI "sold".toList l then some (false, 4)
      else none
    match act with
    | none => none
    | some (isBuy, actLen) =>
      let r1 := l.drop actLen
      let w1 := r1.takeWhile Char.isWhitespace
      if w1 = [] then none else
      let r2 := r1.drop w1.length
      let ds := r2.takeWhile Char.isDigit
      if ds = [] then none else
      let r3 := r2.drop ds.length
      let w2 := r3.takeWhile Char.isWhitespace
      if w2 = [] then none else
      let r4 := r3.drop w2.length
      let animal := r4.takeWhile Char.isAlpha
      if animal = [] then none else
      let r5 := r4.drop animal.length
      let w3 := r5.takeWhile Char.isWhitespace
      if w3 = [] then none else
      let r6 := r5.drop w3.length
      if startsWithCI "for".toList r6 then
        let r7 := r6.drop 3
        let w4 := r7.takeWhile Char.isWhitespace
        if w4 = [] then none else
        let r8 := r7.drop w4.length
        let r9 := if r8.head? = some '$' then r8.tail else r8
        let ps := r9.takeWhile (fun c => c.isDigit || c = ',' || c = '.')
        if ps = [] then none else
        some ⟨isBuy, natOfDigits ds, String.mk (animal.map lowerAscii),
              jsDecimal (ps.filter (fun c => c ≠ ','))⟩
      else none
  else none

/-- Match of `/\beggs?\b/i` anchored at the current position. -/
def eggWordAt (prev : Option Char) (l : List Char) : Option Unit :=
  if boundaryBefore prev ∧ startsWithCI "egg".toList l then
    match (l.drop 3).head? with
    | none => some ()
    | some c =>
      if lowerAscii c = 's' then
        if noWordAhead (l.drop 4) then some () else none
      else if isWordC c then none else some ()
  else none

/-- Match of `/\bmilk\b/i` anchored at the current position. -/
def milkWordAt (prev : Option Char) (l : List Char) : Option Unit :=
  if boundaryBefore prev ∧ startsWithCI "milk".toList l ∧ noWordAhead (l.drop 4) then
    some ()
  else none

def hasEggsWord (l : List Char) : Bool := (firstMatchB eggWordAt none l).isSome
def hasMilkWord (l : List Char) : Bool := (firstMatchB milkWordAt none l).isSome

/-- Body of `extractItemAndAmount` after whitespace normalisation: the
egg/milk pattern first, then the herd pattern, then the numeric fallback. -/
def extractItemCore (t : List Char) : Option Item :=
  match firstMatch nearAt t with
  | some (amount, word) =>
    some ⟨if startsWithCI "milk".toList word then .milk else .eggs, amount, some 0, none⟩
  | none =>
    match firstMatchB herdAt none t with
    | some h =>
      some ⟨if h.isBuy then .herd_buy else .herd_sell, h.cnt, h.value, some h.animal⟩
    | none =>
      let hasE := hasEggsWord t
      let hasM := hasMilkWord t
      if !hasE && !hasM then none else
      let ranchId := extractRanchIdL t
      let nums := digitRuns t
      let candidates :=
        match ranchId with
        | some r => if r ≠ 0 then nums.filter (fun n => n ≠ r) else nums
        | none => nums
      match candidates.getLast? with
      | none => none
      | some a => some ⟨if hasM then .milk else .eggs, a, some 0, none⟩

/-- `extractItemAndAmount` of the source. -/
def extractItemAndAmount (s : String) : Option Item :=
  if s = "" then none else extractItemCore (trimWs (collapseWs s.toList))

/-! ### parseGather -/

/-- Candidate event after validation (`parseGather` of the source). -/
structure Parsed where
  discord_id : Option String
  actor : Option String
  ranch_id : Option Nat
  item_type : ItemType
  amount : Nat
  value : ℚ
  subtype : Option String
deriving DecidableEq, Repr

/-- `parseGather` of the source: extraction plus the amount bounds check and
the falsy-coercions on value and subtype. -/
def parseGather (text : String) : Option Parsed :=
  if text = "" then none else
  match extractItemAndAmount text with
  | none => none
  | some item =>
    if item.amount = 0 then none
    else if 100000 < item.amount then none
    else some ⟨extractDiscordId text, extractActorName text, extractRanchId text,
               item.item_type, item.amount, item.value.getD 0,
               if item.subtype = some "" then none else item.subtype⟩

/-! ### Ledger rows and the duplicate filter -/

/-- One row of the `gathers` table. -/
structure GRow where
  ts : Int
  channel_id : String
  message_id : String
  discord_id : Option String
  ranch_id : Option Nat
  item_type : ItemType
  amount : Nat
  value : ℚ
  subtype : Option String
deriving DecidableEq, Repr

/-- 10 s duplicate suppression window (DUPLICATE_WINDOW_MS). -/
def DUPLICATE_WINDOW_MS : Int := 10 * 1000

/-- Row predicate of the `countRecentDuplicate` query.  The SQL actor clause
is `(@d IS NULL AND discord_id IS NULL) OR (discord_id = @d)`; since SQL
equality against NULL is never true, this is equality of the two nullable
ids. -/
def dupMatches (ch : String) (it : ItemType) (am : Nat) (did : Option String)
    (since : Int) (r : GRow) : Bool :=
  decide (r.channel_id = ch) && decide (r.item_type = it) && decide (r.amount = am) &&
  (match did with
   | none => decide (r.discord_id = none)
   | some d => decide (r.discord_id = some d)) &&
  decide (since ≤ r.ts)

/-- The `countRecentDuplicate` prepared statement. -/
def countRecentDuplicate (ledger : List GRow) (ch : String) (it : ItemType)
    (am : Nat) (did : Option String) (since : Int) : Nat :=
  (ledger.filter (dupMatches ch it am did since)).length

/-! ### The messageCreate handler -/

structure EmbedField where
  name : Option String
  value : Option String
deriving DecidableEq, Repr

structure EmbedData where
  title : Option String
  description : Option String
  fields : List EmbedField
deriving DecidableEq, Repr

structure Msg where
  channelId : String
  id : String
  content : String
  embeds : List EmbedData
deriving DecidableEq, Repr

def embedFieldsText (fs : List EmbedField) : String :=
  fs.foldl (fun s f => s ++ " " ++ f.name.getD "" ++ " " ++ f.value.getD "") ""

/-- Text selection of the handler: the message body, or the first embed's
title, description and fields when the body is empty or whitespace. -/
def resolveText (m : Msg) : String :=
  if trimStr m.content = "" then
    match m.embeds with
    | [] => m.content
    | e :: _ =>
      trimStr (e.title.getD "" ++ " " ++ e.description.getD "" ++ " " ++
        embedFieldsText e.fields)
  else m.content

/-- The `/^unknown$/i` test on the trimmed actor name (actor must also be
truthy, i.e. present and nonempty). -/
def actorIsUnknown (a : Option String) : Bool :=
  match a with
  | none => false
  | some s =>
    (if s = "" then false else true) &&
    decide ((trimStr s).toList.map lowerAscii = "unknown".toList)

inductive MsgOutcome
  | notListenChannel | parseFail | skipUnknownActor | skipNoMention
  | duplicate | uniqueViolation | logged
deriving DecidableEq, Repr

/-- The `messageCreate` handler: channel filter, parse, attribution check,
duplicate suppression, then insert.  The sqlite UNIQUE constraint on
`message_id` (whose violation the source catches and swallows) is modelled
as an explicit pre-insert check. -/
def messageStep (listenCh : String) (now : Int) (m : Msg) (ledger : List GRow) :
    List GRow × MsgOutcome :=
  if m.channelId ≠ listenCh then (ledger, .notListenChannel) else
  match parseGather (resolveText m) with
  | none => (ledger, .parseFail)
  | some parsed =>
    match parsed.discord_id with
    | none =>
      if actorIsUnknown parsed.actor then (ledger, .skipUnknownActor)
      else (ledger, .skipNoMention)
    | some did =>
      if 0 < countRecentDuplicate ledger m.channelId parsed.item_type parsed.amount
            (some did) (now - DUPLICATE_WINDOW_MS)
      then (ledger, .duplicate)
      else if ledger.any (fun r => decide (r.message_id = m.id)) then
        (ledger, .uniqueViolation)
      else
        (ledger ++ [⟨now, m.channelId, m.id, some did, parsed.ranch_id,
                     parsed.item_type, parsed.amount, parsed.value, parsed.subtype⟩],
         .logged)

/-! ### Aggregation queries -/

def sinceOk (since : Option Int) (r : GRow) : Bool :=
  match since with
  | none => true
  | some s => decide (s ≤ r.ts)

def ranchOk (ranch : Option Nat) (r : GRow) : Bool :=
  match ranch with
  | none => true
  | some rid => decide (r.ranch_id = some rid)

def sumAmountWhere (rs : List GRow) (it : ItemType) : Nat :=
  (rs.filter (fun r => decide (r.item_type = it))).foldl (fun n r => n + r.amount) 0

def sumValueWhere (rs : List GRow) (it : ItemType) : ℚ :=
  (rs.filter (fun r => decide (r.item_type = it))).foldl (fun q r => q + r.value) 0

/-- The `sumTotals` query: (eggs, milk) sums under the optional filters. -/
def sumTotals (ledger : List GRow) (ranch : Option Nat) (since : Option Int) :
    Nat × Nat :=
  let rs := ledger.filter (fun r => ranchOk ranch r && sinceOk since r)
  (sumAmountWhere rs .eggs, sumAmountWhere rs .milk)

/-- One aggregated per-actor row of the `topUsers` / `weeklyPerUser` queries. -/
structure URow where
  discord_id : String
  eggs : Nat
  milk : Nat
  herd_bought : Nat
  herd_sold : Nat
  herd_buy_cost : ℚ
  herd_sell_revenue : ℚ
deriving DecidableEq, Repr

/-- Distinct keys in order of first appearance: one output row per distinct
actor.  The source's `GROUP BY discord_id` does not specify the order in
which groups are emitted (sqlite may produce them in index order); first-seen
order is the model's determinization of that unspecified order, and no claim
theorem depends on the choice — every proved property of the leaderboard is
invariant under permuting groups and ties. -/
def dedupFirstSeen (l : List String) : List String :=
  l.foldl (fun ks k => if k ∈ ks then ks else ks ++ [k]) []

def mkURow (rs : List GRow) (k : String) : URow :=
  let mine := rs.filter (fun r => decide (r.discord_id = some k))
  ⟨k, sumAmountWhere mine .eggs, sumAmountWhere mine .milk,
   sumAmountWhere mine .herd_buy, sumAmountWhere mine .herd_sell,
   sumValueWhere mine .herd_buy, sumValueWhere mine .herd_sell⟩

/-- Rows eligible for the per-actor aggregation: the filters of the query's
WHERE clause, including `discord_id IS NOT NULL`. -/
def aggEligible (ledger : List GRow) (ranch : Option Nat) (since : Option Int) :
    List GRow :=
  ledger.filter (fun r => sinceOk since r && ranchOk ranch r && decide (r.discord_id ≠ none))

def aggKeys (ledger : List GRow) (ranch : Option Nat) (since : Option Int) :
    List String :=
  dedupFirstSeen ((aggEligible ledger ranch since).filterMap (fun r => r.discord_id))

/-- GROUP BY discord_id over the eligible rows, first-seen group order. -/
def aggRows (ledger : List GRow) (ranch : Option Nat) (since : Option Int) :
    List URow :=
  (aggKeys ledger ranch since).map (mkURow (aggEligible ledger ranch since))

/-- ORDER BY key `(eggs + milk)`. -/
def totalOf (u : URow) : Nat := u.eggs + u.milk

/-- Stable descending insertion: a new row goes after every row whose key is
at least as large, so rows with equal keys keep their input order.  The
source's `ORDER BY (eggs + milk) DESC` leaves the relative order of equal
keys unspecified; stability is the model's determinization of that choice,
and no claim theorem depends on it. -/
def insertDesc (u : URow) : List URow → List URow
  | [] => [u]
  | v :: rest =>
    if totalOf u ≤ totalOf v then v :: insertDesc u rest else u :: v :: rest

/-- Stable sort, descending by `(eggs + milk)`. -/
def sortDesc (l : List URow) : List URow :=
  l.foldl (fun acc u => insertDesc u acc) []

/-- The `topUsers` query: aggregate, order descending by (eggs+milk), LIMIT. -/
def topUsers (ledger : List GRow) (ranch : Option Nat) (since : Option Int)
    (limit : Nat) : List URow :=
  (sortDesc (aggRows ledger ranch since)).take limit

/-- The `weeklyPerUser` query: same rows, ranch-unfiltered, no limit. -/
def weeklyPerUser (ledger : List GRow) (since : Int) : List URow :=
  sortDesc (aggRows ledger none (some since))

/-- The `deleteSince` statement with a NULL ranch filter: remaining rows and
the change count. -/
def deleteSinceRun (ledger : List GRow) (since : Int) : List GRow × Nat :=
  (ledger.filter (fun r => decide (r.ts < since)),
   (ledger.filter (fun r => decide (since ≤ r.ts))).length)

/-! ### Command-argument helpers -/

/-- The body of `/^(\d+)\s*(h|d)$/i` on the trimmed filter string: the count
and whether the unit is hours. -/
def sinceMatch (l : List Char) : Option (Nat × Bool) :=
  let ds := l.takeWhile Char.isDigit
  if ds = [] then none else
  match (l.drop ds.length).dropWhile Char.isWhitespace with
  | [c] =>
    if lowerAscii c = 'h' then some (natOfDigits ds, true)
    else if lowerAscii c = 'd' then some (natOfDigits ds, false)
    else none
  | _ => none

/-- `parseSinceToTs` of the source: `Option.none` both for an absent filter
and for a malformed one. -/
def parseSinceToTs (now : Int) : Option String → Option Int
  | none => none
  | some s =>
    if s = "" then none else
    match sinceMatch (trimWs s.toList) with
    | none => none
    | some (n, isH) =>
      some (now - (n : Int) * (if isH then 3600000 else 86400000))

def SEVEN_DAYS_MS : Int := 7 * 24 * 60 * 60 * 1000

/-- Effective leaderboard limit:
`Math.max(1, Math.min(200, getInteger("limit") || 50))`; a missing *or zero*
argument falls back to 50 before clamping. -/
def jsLimit (opt : Option Int) : Int :=
  let v : Int := match opt with
    | none => 50
    | some x => if x = 0 then 50 else x
  max 1 (min 200 v)

/-- The `/totals` handler's reply text.  The title shows the filter only when
the computed timestamp is truthy (nonzero); the byte sequences reproduce the
source string literals. -/
def totalsCmd (ledger : List GRow) (now : Int) (since : Option String) : String :=
  let sinceTs := parseSinceToTs now since
  let t := sumTotals ledger none sinceTs
  let tpart :=
    match sinceTs with
    | some ts => if ts ≠ 0 then "last " ++ (since.getD "") else "all-time"
    | none => "all-time"
  "**Totals (All ranches Â· " ++ tpart ++ ")**\nðŸ¥š Eggs: **" ++ toString t.1 ++
    "**\nðŸ¥› Milk: **" ++ toString t.2 ++ "**"

/-- The `/leaderboard` handler's row selection. -/
def leaderboardCmd (ledger : List GRow) (now : Int) (since : Option String)
    (limitOpt : Option Int) : List URow :=
  let limit := jsLimit limitOpt
  let sinceTs := parseSinceToTs now since
  topUsers ledger none sinceTs limit.toNat

/-! ### Scheduler state machine -/

structure ScheduleCfg where
  weekday : Int
  hour : Int
  minute : Int
deriving DecidableEq, Repr

/-- Default schedule: Monday 09:00 America/Toronto. -/
def defaultSchedule : ScheduleCfg := ⟨1, 9, 0⟩

/-- Wall-clock parts in the configured timezone, as `getTorontoDateParts`
produces them (the timezone computation itself is environmental input). -/
structure DateParts where
  year : Int
  month : Int
  day : Int
  hour : Int
  minute : Int
  weekday : Int
deriving DecidableEq, Repr

def isReportTime (p : DateParts) (s : ScheduleCfg) : Bool :=
  decide (p.weekday = s.weekday) && decide (p.hour = s.hour) &&
    decide (p.minute = s.minute)

/-- `String(n).padStart(2, "0")`. -/
def pad2 (n : Int) : String :=
  let s := toString n
  if s.length = 0 then "00" else if s.length = 1 then "0" ++ s else s

/-- The marker date string `YYYY-MM-DD` built by the scheduler. -/
def dateStrOf (p : DateParts) : String :=
  toString p.year ++ "-" ++ pad2 p.month ++ "-" ++ pad2 p.day

/-- Persistent bot state: the ledger plus the meta keys (schedule and
last-report-date marker) and the subscriber table. -/
structure BotState where
  ledger : List GRow
  subscribers : List String
  schedule : Option ScheduleCfg
  lastReportDate : Option String
deriving DecidableEq, Repr

/-- Observable outcome of one run of `performWeeklyReportAndReset`. -/
structure CycleResult where
  st : BotState
  webhookPosts : Nat
  dmTargets : List String
  deletedRows : Nat
  errored : Bool
  skippedReset : Bool
deriving DecidableEq, Repr

/-- `performWeeklyReportAndReset`.  The whole body sits inside a try/catch
that logs and returns, so the function never propagates an error; per-batch
webhook errors and per-subscriber DM errors are additionally caught inline
and do not stop the cycle.  The one modelled fault is a throwing prune
(`pruneFails`): it reaches the outer catch, so the function still returns,
with the ledger untouched and `errored` set.  Delivery is recorded as the
number of webhook batch posts (10 embeds per batch) or the list of DM
targets. -/
def performWeeklyReportAndReset (webhookUrl : Option String) (pruneFails : Bool)
    (now : Int) (st : BotState) : CycleResult :=
  let since := now - SEVEN_DAYS_MS
  let embedCount := 1 + (weeklyPerUser st.ledger since).length
  match webhookUrl with
  | some _ =>
    let posts := (embedCount + 9) / 10
    if pruneFails then ⟨st, posts, [], 0, true, false⟩
    else
      let pr := deleteSinceRun st.ledger since
      ⟨{ st with ledger := pr.1 }, posts, [], pr.2, false, false⟩
  | none =>
    if st.subscribers = [] then ⟨st, 0, [], 0, false, true⟩
    else if pruneFails then ⟨st, 0, st.subscribers, 0, true, false⟩
    else
      let pr := deleteSinceRun st.ledger since
      ⟨{ st with ledger := pr.1 }, 0, st.subscribers, pr.2, false, false⟩

/-- One tick of `startScheduler`'s interval body: at the configured slot,
when the marker differs from today's date, run the cycle and then set the
marker to today.  Because the cycle traps its own errors, the marker update
is unconditional once the cycle was entered. -/
def schedulerTick (webhookUrl : Option String) (pruneFails : Bool) (now : Int)
    (p : DateParts) (st : BotState) : BotState × Bool :=
  let sched := st.schedule.getD defaultSchedule
  if isReportTime p sched then
    let ds := dateStrOf p
    if st.lastReportDate = some ds then (st, false)
    else
      let res := performWeeklyReportAndReset webhookUrl pruneFails now st
      ({ res.st with lastReportDate := some ds }, true)
  else (st, false)

/-- A sequence of scheduler ticks; returns the final state and the number of
ticks that fired the cycle. -/
def runTicks (webhookUrl : Option String) (pruneFails : Bool) :
    List (Int × DateParts) → BotState → BotState × Nat
  | [], st => (st, 0)
  | (now, p) :: rest, st =>
    let r := schedulerTick webhookUrl pruneFails now p st
    let rr := runTicks webhookUrl pruneFails rest r.1
    (rr.1, (if r.2 then 1 else 0) + rr.2)

inductive CmdReply
  | permissionDenied | invalidArgs | invalidRange | ok
deriving DecidableEq, Repr

/-- The `set_report_schedule` handler: permission check, presence check,
range check, then store the schedule and clear the last-report-date marker. -/
def setScheduleCmd (allowed : Bool) (weekday hour minute : Option Int)
    (st : BotState) : BotState × CmdReply :=
  if !allowed then (st, .permissionDenied) else
  match weekday, hour, minute with
  | some w, some h, some m =>
    if w < 0 ∨ 6 < w ∨ h < 0 ∨ 23 < h ∨ m < 0 ∨ 59 < m then (st, .invalidRange)
    else ({ st with schedule := some ⟨w, h, m⟩, lastReportDate := none }, .ok)
  | _, _, _ => (st, .invalidArgs)

/-! ### Claim-side reference definitions (formalising the specification's
wording, for comparison with the code's behaviour) -/

/-- The fallback rule as the specification words it: collect all integers,
discard ONE integer equal to the already-extracted ranch id if present, take
the last remaining integer as the amount, milk if "milk" appears else eggs.
This is the reference definition to compare against the code. -/
def claimFallbackOne (s : String) : Option Item :=
  let t := trimWs (collapseWs s.toList)
  let hasE := hasEggsWord t
  let hasM := hasMilkWord t
  if !hasE && !hasM then none else
  let nums := digitRuns t
  let candidates :=
    match extractRanchIdL t with
    | some r => nums.erase r
    | none => nums
  match candidates.getLast? with
  | none => none
  | some a => some ⟨if hasM then .milk else .eggs, a, some 0, none⟩

/-- The fallback rule as the code implements it, written in the claim's
vocabulary: collect all integers, discard ALL integers equal to the
already-extracted ranch id when that id is present and nonzero, take the
last remaining integer as the amount (no event when none remain), milk if
"milk" appears else eggs. -/
def fallbackRuleAll (t : List Char) : Option Item :=
  let hasE := hasEggsWord t
  let hasM := hasMilkWord t
  if !hasE && !hasM then none else
  let nums := digitRuns t
  let candidates :=
    match extractRanchIdL t with
    | some r => if r ≠ 0 then nums.filter (fun n => n ≠ r) else nums
    | none => nums
  match candidates.getLast? with
  | none => none
  | some a => some ⟨if hasM then .milk else .eggs, a, some 0, none⟩

/-- Clamping to the range [1, 200], the claim's reading of the leaderboard
limit handling. -/
def specClamp (v : Int) : Int := max 1 (min 200 v)

/-! ### Concrete fixtures used by counterexamples and witnesses -/

/-- A plain message carrying one mention-attributed egg collection. -/
def dupMsg (mid : String) : Msg :=
  ⟨"C", mid, "<@123456789012345678> collected 5 eggs", []⟩

/-- The row `dupMsg` inserts at time `ts`. -/
def dupRow (ts : Int) (mid : String) : GRow :=
  ⟨ts, "C", mid, some "123456789012345678", none, .eggs, 5, 0, none⟩

def demoRow (mid did : String) : GRow :=
  ⟨1000, "C", mid, some did, none, .eggs, 5, 0, none⟩

/-- Two-actor ledger with equal totals. -/
def demoLedger2 : List GRow := [demoRow "m1" "111", demoRow "m2" "222"]

/-- A bot state with one recent ledger row, no subscribers, default schedule
and no marker. -/
def stC1 : BotState :=
  ⟨[⟨9990, "C", "x", some "111", none, .eggs, 3, 0, none⟩], [], none, none⟩

/-- Wall clock at Monday 2025-01-06 09:00 (the default slot). -/
def partsMon : DateParts := ⟨2025, 1, 6, 9, 0, 1⟩

/-- Position of a key in a key list (first occurrence), used to express the
first-seen order of actors. -/
def rankIn (ks : List String) (k : String) : Nat :=
  match ks with
  | [] => 0
  | a :: rest => if a = k then 0 else rankIn rest k + 1

/-- The leaderboard ordering the claim asserts: strictly larger total first,
and among equal totals the actor seen first in the ledger first. -/
def ROf (rk : URow → Nat) (a b : URow) : Prop :=
  totalOf b < totalOf a ∨ (totalOf a = totalOf b ∧ rk a < rk b)

/-! ## Helper lemmas -/

theorem parseGather_some {t : String} {p : Parsed} (h : parseGather t = some p) :
    p.discord_id = extractDiscordId t ∧ 1 ≤ p.amount ∧ p.amount ≤ 100000 := by
  unfold parseGather at h
  split at h
  · exact absurd h (by simp)
  · split at h
    · exact absurd h (by simp)
    · split at h
      · exact absurd h (by simp)
      · split at h
        · exact absurd h (by simp)
        · injection h with h
          subst h
          refine ⟨rfl, ?_, ?_⟩ <;> (dsimp only; omega)

/-! ## Claim theorems -/

/-- C5: the validator rejects a candidate whose amount is zero or above
100000 and accepts everything in between: every event `parseGather` emits
has `1 ≤ amount ≤ 100000`; amount 100000 is accepted and amount 100001 is
rejected on the concrete egg-collection message. -/
theorem validator_amount_bounds :
    (∀ (t : String) (p : Parsed), parseGather t = some p →
       1 ≤ p.amount ∧ p.amount ≤ 100000) ∧
    parseGather "<@123456789012345678> collected 100000 eggs" =
      some ⟨some "123456789012345678", none, none, .eggs, 100000, 0, none⟩ ∧
    parseGather "<@123456789012345678> collected 100001 eggs" = none := by
  refine ⟨?_, by decide, by decide⟩
  intro t p h
  exact (parseGather_some h).2

/-- Witness for `validator_amount_bounds` at a concrete accepted message. -/
theorem validator_amount_bounds_witness :
    1 ≤ (⟨some "123456789012345678", none, none, ItemType.eggs, 5, 0, none⟩ : Parsed).amount ∧
    (⟨some "123456789012345678", none, none, ItemType.eggs, 5, 0, none⟩ : Parsed).amount ≤ 100000 :=
  validator_amount_bounds.1 "<@123456789012345678> collected 5 eggs" _ (by decide)

/-- C6: the primary and herd extraction rules produce the specified
candidates on the reference inputs (actor id, item type, amount, price with
commas stripped, lowercased animal subtype), and the herd rule is consulted
only when the egg/milk rule found no match. -/
theorem extractor_rules :
    extractDiscordId "<@123456789012345678> collected 5 eggs" = some "123456789012345678" ∧
    extractItemAndAmount "<@123456789012345678> collected 5 eggs" =
      some ⟨.eggs, 5, some 0, none⟩ ∧
    extractItemAndAmount "[PlayerX] bought 5 Bison for $300" =
      some ⟨.herd_buy, 5, some 300, some "bison"⟩ ∧
    extractItemAndAmount "sold 4 Bison for 960.0$" =
      some ⟨.herd_sell, 4, some (960 : ℚ), some "bison"⟩ ∧
    extractItemAndAmount "bought 2 Bison for $1,500" =
      some ⟨.herd_buy, 2, some 1500, some "bison"⟩ ∧
    (∀ (s : String) (x : Nat × List Char), s ≠ "" →
       firstMatch nearAt (trimWs (collapseWs s.toList)) = some x →
       extractItemAndAmount s =
         some ⟨if startsWithCI "milk".toList x.2 then .milk else .eggs, x.1, some 0, none⟩) := by
  refine ⟨by decide, by decide, by decide, by decide, by decide, ?_⟩
  intro s x hs hx
  unfold extractItemAndAmount extractItemCore
  rw [if_neg hs, hx]

/-- Witness for `extractor_rules` at the concrete egg message. -/
theorem extractor_rules_witness :
    extractItemAndAmount "<@123456789012345678> collected 5 eggs" =
      some ⟨if startsWithCI "milk".toList (((5 : Nat), "eggs".toList)).2 then ItemType.milk
            else ItemType.eggs, (((5 : Nat), "eggs".toList)).1, some 0, none⟩ :=
  extractor_rules.2.2.2.2.2 _ ((5 : Nat), "eggs".toList) (by decide) (by decide)

/-- C7 counterexample: the code's fallback discards EVERY integer equal to
the ranch id, not one.  On "eggs ranch 7 7" the numeric candidates are
[7, 7], the ranch id is 7, the egg/milk and herd rules do not match, and the
code returns no match, while the claim's discard-one reading yields an eggs
event with amount 7. -/
theorem fallback_counterexample :
    extractItemAndAmount "eggs ranch 7 7" = none ∧
    claimFallbackOne "eggs ranch 7 7" = some ⟨.eggs, 7, some 0, none⟩ ∧
    firstMatch nearAt (trimWs (collapseWs ("eggs ranch 7 7").toList)) = none ∧
    firstMatchB herdAt none (trimWs (collapseWs ("eggs ranch 7 7").toList)) = none ∧
    extractRanchId "eggs ranch 7 7" = some 7 ∧
    digitRuns (trimWs (collapseWs ("eggs ranch 7 7").toList)) = [7, 7] := by
  exact ⟨by decide, by decide, by decide, by decide, by decide, by decide⟩

/-- C7 amended: when neither the egg/milk rule nor the herd rule matched, the
extractor behaves exactly as the discard-ALL fallback: collect all integers,
drop every integer equal to a present nonzero ranch id, take the last
remaining integer as the amount (no event if none remain), milk if "milk"
appears else eggs. -/
theorem fallback_discards_all (s : String) (hs : s ≠ "")
    (hn : firstMatch nearAt (trimWs (collapseWs s.toList)) = none)
    (hh : firstMatchB herdAt none (trimWs (collapseWs s.toList)) = none) :
    extractItemAndAmount s = fallbackRuleAll (trimWs (collapseWs s.toList)) := by
  unfold extractItemAndAmount extractItemCore fallbackRuleAll
  rw [if_neg hs, hn, hh]

/-- Witness for `fallback_discards_all` on a concrete fallback-shaped text. -/
theorem fallback_discards_all_witness :
    extractItemAndAmount "eggs delivered ranch 3 total 41" =
      fallbackRuleAll (trimWs (collapseWs ("eggs delivered ranch 3 total 41").toList)) :=
  fallback_discards_all _ (by decide) (by decide) (by decide)

/-- C9 counterexample: a malformed `since` filter ("abc") produces the very
same totals reply as no filter at all — an ordinary totals listing marked
"all-time" — rather than a validation message. -/
theorem malformed_since_silent :
    totalsCmd demoLedger2 0 (some "abc") = totalsCmd demoLedger2 0 none ∧
    parseSinceToTs 0 (some "abc") = none ∧
    totalsCmd demoLedger2 0 (some "abc") =
      "**Totals (All ranches Â· all-time)**\nðŸ¥š Eggs: **10**\nðŸ¥› Milk: **0**" := by
  exact ⟨by decide, by decide, by decide⟩

/-- C9 amended: only `set_schedule` validates its arguments with an explicit
message (missing arguments and out-of-range values are each answered with a
distinct validation reply); a `since` filter that does not match the
`<N>h`/`<N>d` shape is instead silently treated as absent (all-time). -/
theorem malformed_args_handling :
    (∀ (ledger : List GRow) (now : Int) (s : String), s ≠ "" →
       sinceMatch (trimWs s.toList) = none →
       totalsCmd ledger now (some s) = totalsCmd ledger now none) ∧
    (∀ (st : BotState) (w h m : Int),
       (w < 0 ∨ 6 < w ∨ h < 0 ∨ 23 < h ∨ m < 0 ∨ 59 < m) →
       setScheduleCmd true (some w) (some h) (some m) st = (st, .invalidRange)) ∧
    (∀ (st : BotState) (h m : Option Int),
       setScheduleCmd true none h m st = (st, .invalidArgs)) := by
  refine ⟨?_, ?_, ?_⟩
  · intro ledger now s hs hm
    have hps : parseSinceToTs now (some s) = none := by
      simp only [parseSinceToTs]
      rw [if_neg hs, hm]
    simp only [totalsCmd, hps]
    rfl
  · intro st w h m hr
    simp [setScheduleCmd, hr]
  · intro st h m
    cases h <;> cases m <;> rfl

/-- Witness for `malformed_args_handling` on concrete malformed inputs. -/
theorem malformed_args_handling_witness :
    totalsCmd demoLedger2 5 (some "soon") = totalsCmd demoLedger2 5 none ∧
    setScheduleCmd true (some 7) (some 0) (some 0) stC1 = (stC1, .invalidRange) :=
  ⟨malformed_args_handling.1 demoLedger2 5 "soon" (by decide) (by decide),
   malformed_args_handling.2.1 stC1 7 0 0 (by omega)⟩

/-- C10: with no report webhook configured and no subscribers, the weekly
cycle returns before the prune: nothing is delivered, no rows are deleted,
the state is unchanged and no error is raised. -/
theorem cycle_skips_reset (pruneFails : Bool) (now : Int) (st : BotState)
    (h : st.subscribers = []) :
    performWeeklyReportAndReset none pruneFails now st =
      ⟨st, 0, [], 0, false, true⟩ := by
  unfold performWeeklyReportAndReset
  rw [h]
  rfl

/-- Witness for `cycle_skips_reset` at a concrete subscriber-free state. -/
theorem cycle_skips_reset_witness :
    performWeeklyReportAndReset none false 10000 stC1 = ⟨stC1, 0, [], 0, false, true⟩ :=
  cycle_skips_reset false 10000 stC1 rfl

/-! ## Scheduler lemmas -/

theorem tick_cases (w : Option String) (pf : Bool) (now : Int) (p : DateParts)
    (st : BotState) :
    (isReportTime p (st.schedule.getD defaultSchedule) = true ∧
     st.lastReportDate ≠ some (dateStrOf p) ∧
     schedulerTick w pf now p st =
       ({ (performWeeklyReportAndReset w pf now st).st with
           lastReportDate := some (dateStrOf p) }, true)) ∨
    schedulerTick w pf now p st = (st, false) := by
  unfold schedulerTick
  by_cases h1 : isReportTime p (st.schedule.getD defaultSchedule) = true
  · by_cases h2 : st.lastReportDate = some (dateStrOf p)
    · right; simp [h1, h2]
    · left; exact ⟨h1, h2, by simp [h1, h2]⟩
  · right; simp [h1]

theorem tick_fired_marker {w : Option String} {pf : Bool} {now : Int}
    {p : DateParts} {st : BotState} (h : (schedulerTick w pf now p st).2 = true) :
    (schedulerTick w pf now p st).1.lastReportDate = some (dateStrOf p) := by
  rcases tick_cases w pf now p st with ⟨_, _, heq⟩ | heq
  · rw [heq]
  · rw [heq] at h; simp at h

theorem tick_not_fired {w : Option String} {pf : Bool} {now : Int}
    {p : DateParts} {st : BotState} (h : ¬(schedulerTick w pf now p st).2 = true) :
    (schedulerTick w pf now p st).1 = st := by
  rcases tick_cases w pf now p st with ⟨_, _, heq⟩ | heq
  · rw [heq] at h; simp at h
  · rw [heq]

theorem tick_no_fire_of_marker {w : Option String} {pf : Bool} {now : Int}
    {p : DateParts} {st : BotState} (h : st.lastReportDate = some (dateStrOf p)) :
    schedulerTick w pf now p st = (st, false) := by
  unfold schedulerTick
  by_cases h1 : isReportTime p (st.schedule.getD defaultSchedule) = true
  · simp [h1, h]
  · simp [h1]

theorem runTicks_no_fire (w : Option String) (pf : Bool) :
    ∀ (l : List (Int × DateParts)) (st : BotState) (d : String),
      (∀ x ∈ l, dateStrOf x.2 = d) → st.lastReportDate = some d →
      runTicks w pf l st = (st, 0) := by
  intro l
  induction l with
  | nil => intro st d _ _; rfl
  | cons x rest ih =>
    rcases x with ⟨now, p⟩
    intro st d hall hm
    have hx : dateStrOf p = d := hall (now, p) (by simp)
    have ht : schedulerTick w pf now p st = (st, false) :=
      tick_no_fire_of_marker (by rw [hx]; exact hm)
    simp [runTicks, ht, ih st d (fun x hx => hall x (List.mem_cons_of_mem _ hx)) hm]

/-! ## Scheduler claim theorems -/

/-- C1 counterexample: with the webhook configured and a prune step that
throws, the cycle reports an internal error and deletes nothing (the prune
would have removed one row), and yet the scheduler tick still fires and
advances the marker to today — the marker is NOT left unadvanced on
failure. -/
theorem marker_advance_counterexample :
    (performWeeklyReportAndReset (some "w") true 10000 stC1).errored = true ∧
    (performWeeklyReportAndReset (some "w") true 10000 stC1).deletedRows = 0 ∧
    (performWeeklyReportAndReset (some "w") true 10000 stC1).st.ledger = stC1.ledger ∧
    (deleteSinceRun stC1.ledger (10000 - SEVEN_DAYS_MS)).2 = 1 ∧
    (schedulerTick (some "w") true 10000 partsMon stC1).2 = true ∧
    (schedulerTick (some "w") true 10000 partsMon stC1).1.lastReportDate =
      some "2025-01-06" := by
  exact ⟨by decide, by decide, by decide, by decide, by decide, by decide⟩

/-- C1 amended: `performWeeklyReportAndReset` traps every error of its own
steps and returns normally, so whenever the scheduler fires the cycle — with
or without an internal failure such as a throwing prune — the marker is
advanced to today's date, and the next tick on the same date does not retry
the cycle. -/
theorem marker_always_advances :
    ∀ (w : Option String) (pf : Bool) (now : Int) (p : DateParts) (st : BotState),
      ((schedulerTick w pf now p st).2 = true →
        (schedulerTick w pf now p st).1.lastReportDate = some (dateStrOf p)) ∧
      ((schedulerTick w pf now p st).2 = true → ∀ now2 : Int,
        schedulerTick w pf now2 p (schedulerTick w pf now p st).1 =
          ((schedulerTick w pf now p st).1, false)) := by
  intro w pf now p st
  refine ⟨fun h => tick_fired_marker h, fun h now2 => ?_⟩
  exact tick_no_fire_of_marker (tick_fired_marker h)

/-- Witness for `marker_always_advances` at the concrete failing-prune tick. -/
theorem marker_always_advances_witness :
    (schedulerTick (some "w") true 10000 partsMon stC1).1.lastReportDate =
      some (dateStrOf partsMon) :=
  (marker_always_advances (some "w") true 10000 partsMon stC1).1 (by decide)

/-- C2: the scheduler fires at most once per calendar date: at the configured
slot with the marker not equal to today it fires and sets the marker to
today; an immediate second tick at the same wall clock does not re-fire; any
sequence of ticks on one date fires at most once; and a valid `set_schedule`
clears the marker, after which a tick at the new slot fires even on a date
already marked. -/
theorem scheduler_once_per_date :
    (∀ (w : Option String) (pf : Bool) (now : Int) (p : DateParts) (st : BotState),
       isReportTime p (st.schedule.getD defaultSchedule) = true →
       st.lastReportDate ≠ some (dateStrOf p) →
       (schedulerTick w pf now p st).2 = true ∧
       (schedulerTick w pf now p st).1.lastReportDate = some (dateStrOf p)) ∧
    (∀ (w : Option String) (pf : Bool) (now now2 : Int) (p : DateParts) (st : BotState),
       (schedulerTick w pf now p st).2 = true →
       (schedulerTick w pf now2 p (schedulerTick w pf now p st).1).2 = false) ∧
    (∀ (w : Option String) (pf : Bool) (l : List (Int × DateParts)) (st : BotState)
       (d : String), (∀ x ∈ l, dateStrOf x.2 = d) → (runTicks w pf l st).2 ≤ 1) ∧
    (∀ (st : BotState) (wd hr mi : Int),
       0 ≤ wd → wd ≤ 6 → 0 ≤ hr → hr ≤ 23 → 0 ≤ mi → mi ≤ 59 →
       (setScheduleCmd true (some wd) (some hr) (some mi) st).2 = .ok ∧
       (setScheduleCmd true (some wd) (some hr) (some mi) st).1.lastReportDate = none ∧
       (∀ (w : Option String) (pf : Bool) (now : Int) (p : DateParts),
          isReportTime p ⟨wd, hr, mi⟩ = true →
          (schedulerTick w pf now p
            (setScheduleCmd true (some wd) (some hr) (some mi) st).1).2 = true)) := by
  refine ⟨?_, ?_, ?_, ?_⟩
  · intro w pf now p st h1 h2
    rcases tick_cases w pf now p st with ⟨_, _, heq⟩ | heq
    · rw [heq]; exact ⟨rfl, rfl⟩
    · exfalso
      unfold schedulerTick at heq
      rw [if_pos h1] at heq
      rw [if_neg h2] at heq
      simp at heq
  · intro w pf now now2 p st h
    rw [tick_no_fire_of_marker (tick_fired_marker h)]
  · intro w pf l st d hall
    induction l generalizing st with
    | nil => simp [runTicks]
    | cons x rest ih =>
      rcases x with ⟨now, p⟩
      by_cases hf : (schedulerTick w pf now p st).2 = true
      · have hm := tick_fired_marker hf
        have hd : dateStrOf p = d := hall (now, p) (by simp)
        have h0 := runTicks_no_fire w pf rest (schedulerTick w pf now p st).1 d
          (fun x hx => hall x (List.mem_cons_of_mem _ hx)) (by rw [hm, hd])
        simp only [runTicks, hf, h0]
        simp
      · have hst := tick_not_fired hf
        have hf' : (schedulerTick w pf now p st).2 = false := by simpa using hf
        simp only [runTicks, hst, hf']
        simpa using ih st (fun x hx => hall x (List.mem_cons_of_mem _ hx))
  · intro st wd hr mi h1 h2 h3 h4 h5 h6
    have hrange : ¬(wd < 0 ∨ 6 < wd ∨ hr < 0 ∨ 23 < hr ∨ mi < 0 ∨ 59 < mi) := by omega
    have hset : setScheduleCmd true (some wd) (some hr) (some mi) st =
        ({ st with schedule := some ⟨wd, hr, mi⟩, lastReportDate := none }, .ok) := by
      unfold setScheduleCmd
      simp [hrange]
    refine ⟨by rw [hset], by rw [hset], ?_⟩
    intro w pf now p hrt
    rw [hset]
    unfold schedulerTick
    simp [hrt]

/-- Witness for `scheduler_once_per_date` at the default slot on a fresh
state. -/
theorem scheduler_once_per_date_witness :
    (schedulerTick none false 0 partsMon stC1).2 = true ∧
    (schedulerTick none false 0 partsMon stC1).1.lastReportDate =
      some (dateStrOf partsMon) :=
  scheduler_once_per_date.1 none false 0 partsMon stC1 (by decide) (by decide)


/-! ## Duplicate-filter and handler lemmas -/

theorem dupMatches_iff {ch : String} {it : ItemType} {am : Nat} {did : Option String}
    {since : Int} {r : GRow} :
    dupMatches ch it am did since r = true ↔
      (r.channel_id = ch ∧ r.item_type = it ∧ r.amount = am ∧
        r.discord_id = did ∧ since ≤ r.ts) := by
  unfold dupMatches
  cases did <;> simp [Bool.and_eq_true, decide_eq_true_eq, and_assoc]

theorem countDup_pos_iff (ledger : List GRow) (ch : String) (it : ItemType)
    (am : Nat) (did : Option String) (since : Int) :
    0 < countRecentDuplicate ledger ch it am did since ↔
      ∃ r ∈ ledger, r.channel_id = ch ∧ r.item_type = it ∧ r.amount = am ∧
        r.discord_id = did ∧ since ≤ r.ts := by
  unfold countRecentDuplicate
  rw [← List.countP_eq_length_filter, List.countP_pos_iff]
  constructor
  · rintro ⟨r, hr, hm⟩; exact ⟨r, hr, dupMatches_iff.mp hm⟩
  · rintro ⟨r, hr, hm⟩; exact ⟨r, hr, dupMatches_iff.mpr hm⟩

theorem nullable_actor_eq {did rd : Option String} :
    ((did = none ∧ rd = none) ∨ ∃ d, did = some d ∧ rd = some d) ↔ rd = did := by
  cases did <;> simp

theorem messageStep_shape (listenCh : String) (now : Int) (m : Msg)
    (ledger : List GRow) :
    (messageStep listenCh now m ledger).1 = ledger ∨
    (∃ p did, parseGather (resolveText m) = some p ∧ p.discord_id = some did ∧
      messageStep listenCh now m ledger =
        (ledger ++ [⟨now, m.channelId, m.id, some did, p.ranch_id, p.item_type,
                     p.amount, p.value, p.subtype⟩], .logged)) := by
  unfold messageStep
  split
  · left; rfl
  · split
    · left; rfl
    · rename_i p hpg
      split
      · split
        · left; rfl
        · left; rfl
      · rename_i did hdo
        split
        · left; rfl
        · split
          · left; rfl
          · right; exact ⟨p, did, hpg, hdo, rfl⟩

theorem messageStep_duplicate_iff {listenCh : String} {now : Int} {m : Msg}
    {ledger : List GRow} {p : Parsed} {did : String}
    (hch : m.channelId = listenCh) (hpg : parseGather (resolveText m) = some p)
    (hdid : p.discord_id = some did) :
    (messageStep listenCh now m ledger).2 = .duplicate ↔
      ∃ r ∈ ledger, r.channel_id = m.channelId ∧ r.item_type = p.item_type ∧
        r.amount = p.amount ∧ r.discord_id = some did ∧
        now - DUPLICATE_WINDOW_MS ≤ r.ts := by
  unfold messageStep
  rw [if_neg (fun hne => hne hch)]
  simp only [hpg, hdid]
  by_cases hc : 0 < countRecentDuplicate ledger m.channelId p.item_type p.amount
      (some did) (now - DUPLICATE_WINDOW_MS)
  · rw [if_pos hc]
    exact iff_of_true rfl ((countDup_pos_iff _ _ _ _ _ _).mp hc)
  · rw [if_neg hc]
    refine iff_of_false ?_ (fun hex => hc ((countDup_pos_iff _ _ _ _ _ _).mpr hex))
    split <;> simp

theorem takeWhile_all_self {p : Char → Bool} : ∀ l : List Char,
    (l.takeWhile p).all p = true := by
  intro l
  induction l with
  | nil => rfl
  | cons c rest ih =>
    by_cases h : p c
    · simp [List.takeWhile_cons, h, ih]
    · simp [List.takeWhile_cons, h]

theorem mentionTail_valid {r : List Char} {id : String} (h : mentionTail r = some id) :
    17 ≤ id.length ∧ id.length ≤ 20 ∧ id.toList.all Char.isDigit = true := by
  unfold mentionTail at h
  split at h
  · rename_i hb
    split at h
    · injection h with h
      subst h
      exact ⟨hb.1, hb.2, takeWhile_all_self _⟩
    · exact absurd h (by simp)
  · exact absurd h (by simp)

theorem mentionAt_valid {l : List Char} {id : String} (h : mentionAt l = some id) :
    17 ≤ id.length ∧ id.length ≤ 20 ∧ id.toList.all Char.isDigit = true := by
  unfold mentionAt at h
  split at h
  · exact mentionTail_valid h
  · exact absurd h (by simp)

theorem firstMatch_mention_valid : ∀ (l : List Char) {id : String},
    firstMatch mentionAt l = some id →
    17 ≤ id.length ∧ id.length ≤ 20 ∧ id.toList.all Char.isDigit = true := by
  intro l
  induction l with
  | nil =>
    intro id h
    unfold firstMatch at h
    exact mentionAt_valid h
  | cons c rest ih =>
    intro id h
    unfold firstMatch at h
    cases hm : mentionAt (c :: rest) with
    | some r => rw [hm] at h; injection h with h; subst h; exact mentionAt_valid hm
    | none => rw [hm] at h; exact ih h

/-! ## Claim theorems for the handler -/

/-- C3: an event is suppressed as a duplicate exactly when the ledger already
holds an event with the same channel, item type, amount and actor (or both
actors null) whose timestamp is at least now minus the 10-second window; on
the concrete scenario the identical message 5 s later is suppressed and the
identical message 11 s later is appended. -/
theorem duplicate_suppression :
    (∀ (ledger : List GRow) (ch : String) (it : ItemType) (am : Nat)
       (did : Option String) (since : Int),
       0 < countRecentDuplicate ledger ch it am did since ↔
         ∃ r ∈ ledger, r.channel_id = ch ∧ r.item_type = it ∧ r.amount = am ∧
           ((did = none ∧ r.discord_id = none) ∨
             ∃ d, did = some d ∧ r.discord_id = some d) ∧ since ≤ r.ts) ∧
    (∀ (listenCh : String) (now : Int) (m : Msg) (ledger : List GRow) (p : Parsed)
       (did : String),
       m.channelId = listenCh → parseGather (resolveText m) = some p →
       p.discord_id = some did →
       ((messageStep listenCh now m ledger).2 = .duplicate ↔
         ∃ r ∈ ledger, r.channel_id = m.channelId ∧ r.item_type = p.item_type ∧
           r.amount = p.amount ∧ r.discord_id = some did ∧
           now - DUPLICATE_WINDOW_MS ≤ r.ts)) ∧
    messageStep "C" 1000000 (dupMsg "m1") [] = ([dupRow 1000000 "m1"], .logged) ∧
    messageStep "C" 1005000 (dupMsg "m2") [dupRow 1000000 "m1"] =
      ([dupRow 1000000 "m1"], .duplicate) ∧
    messageStep "C" 1011000 (dupMsg "m3") [dupRow 1000000 "m1"] =
      ([dupRow 1000000 "m1", dupRow 1011000 "m3"], .logged) := by
  refine ⟨?_, ?_, by decide, by decide, by decide⟩
  · intro ledger ch it am did since
    rw [countDup_pos_iff]
    constructor
    · rintro ⟨r, hr, h1, h2, h3, h4, h5⟩
      exact ⟨r, hr, h1, h2, h3, nullable_actor_eq.mpr h4, h5⟩
    · rintro ⟨r, hr, h1, h2, h3, h4, h5⟩
      exact ⟨r, hr, h1, h2, h3, nullable_actor_eq.mp h4, h5⟩
  · intro listenCh now m ledger p did hch hpg hdid
    exact messageStep_duplicate_iff hch hpg hdid

/-- Witness for `duplicate_suppression` at the concrete in-window repeat. -/
theorem duplicate_suppression_witness :
    (messageStep "C" 1005000 (dupMsg "m2") [dupRow 1000000 "m1"]).2 =
        MsgOutcome.duplicate ↔
      ∃ r ∈ [dupRow 1000000 "m1"],
        r.channel_id = (dupMsg "m2").channelId ∧
        r.item_type = (⟨some "123456789012345678", none, none, ItemType.eggs, 5, 0,
          none⟩ : Parsed).item_type ∧
        r.amount = (⟨some "123456789012345678", none, none, ItemType.eggs, 5, 0,
          none⟩ : Parsed).amount ∧
        r.discord_id = some "123456789012345678" ∧
        1005000 - DUPLICATE_WINDOW_MS ≤ r.ts :=
  duplicate_suppression.2.1 "C" 1005000 (dupMsg "m2") [dupRow 1000000 "m1"]
    ⟨some "123456789012345678", none, none, ItemType.eggs, 5, 0, none⟩
    "123456789012345678" rfl (by decide) rfl

/-- C4: an inbound message is appended only when its text carries a platform
mention wrapping a 17-20 digit actor id; with no mention id the ledger is
unchanged (whether or not the bracketed name reads "unknown"), so every row
the handler stores carries a well-formed non-null actor id. -/
theorem attribution_required :
    ∀ (listenCh : String) (now : Int) (m : Msg) (ledger : List GRow),
      (extractDiscordId (resolveText m) = none →
        (messageStep listenCh now m ledger).1 = ledger) ∧
      (∀ r ∈ (messageStep listenCh now m ledger).1,
        r ∈ ledger ∨
          ∃ id, r.discord_id = some id ∧ extractDiscordId (resolveText m) = some id ∧
            17 ≤ id.length ∧ id.length ≤ 20 ∧ id.toList.all Char.isDigit = true) := by
  intro listenCh now m ledger
  rcases messageStep_shape listenCh now m ledger with hsh | ⟨p, did, hpg, hdid, hsh⟩
  · exact ⟨fun _ => hsh, fun r hr => Or.inl (hsh ▸ hr)⟩
  · have hid : extractDiscordId (resolveText m) = some did := by
      rw [← (parseGather_some hpg).1, hdid]
    have h1 : (messageStep listenCh now m ledger).1 =
        ledger ++ [⟨now, m.channelId, m.id, some did, p.ranch_id, p.item_type,
                    p.amount, p.value, p.subtype⟩] := by
      rw [hsh]
    constructor
    · intro h0; rw [h0] at hid; exact absurd hid (by simp)
    · intro r hr
      rw [h1] at hr
      rcases List.mem_append.mp hr with hr | hr
      · exact Or.inl hr
      · right
        rcases List.mem_singleton.mp hr with rfl
        exact ⟨did, rfl, hid, firstMatch_mention_valid _ hid⟩

/-- Witness for `attribution_required`: a mention-free message (with an
explicit "unknown" actor) leaves the ledger unchanged. -/
theorem attribution_required_witness :
    (messageStep "C" 0 ⟨"C", "m9", "[unknown] 5 eggs", []⟩ []).1 = [] :=
  (attribution_required "C" 0 ⟨"C", "m9", "[unknown] 5 eggs", []⟩ []).1 (by decide)



/-! ## Leaderboard ordering lemmas -/

theorem mem_insertDesc {u x : URow} : ∀ {l : List URow},
    x ∈ insertDesc u l ↔ x = u ∨ x ∈ l := by
  intro l
  induction l with
  | nil => simp [insertDesc]
  | cons v rest ih =>
    unfold insertDesc
    split
    · simp only [List.mem_cons, ih]
      tauto
    · simp only [List.mem_cons]

theorem insertDesc_pairwise {rk : URow → Nat} {u : URow} : ∀ {l : List URow},
    l.Pairwise (ROf rk) → (∀ a ∈ l, rk a < rk u) →
    (insertDesc u l).Pairwise (ROf rk) := by
  intro l
  induction l with
  | nil => intro _ _; simp [insertDesc]
  | cons v rest ih =>
    intro hl hu
    rcases List.pairwise_cons.mp hl with ⟨hv, hrest⟩
    unfold insertDesc
    split
    · rename_i hle
      refine List.pairwise_cons.mpr
        ⟨?_, ih hrest (fun a ha => hu a (List.mem_cons_of_mem _ ha))⟩
      intro w hw
      rcases mem_insertDesc.mp hw with rfl | hw'
      · rcases Nat.lt_or_ge (totalOf w) (totalOf v) with hlt | hge
        · exact Or.inl hlt
        · exact Or.inr ⟨Nat.le_antisymm hge hle, hu v (List.mem_cons_self _ _)⟩
      · exact hv w hw'
    · rename_i hgt
      refine List.pairwise_cons.mpr ⟨?_, hl⟩
      intro w hw
      rcases List.mem_cons.mp hw with rfl | hw'
      · exact Or.inl (by omega)
      · rcases hv w hw' with hlt | ⟨heq, _⟩
        · exact Or.inl (by omega)
        · exact Or.inl (by omega)

theorem sortAux_pairwise {rk : URow → Nat} :
    ∀ (l acc : List URow), acc.Pairwise (ROf rk) →
      (∀ a ∈ acc, ∀ x ∈ l, rk a < rk x) →
      l.Pairwise (fun a b => rk a < rk b) →
      (l.foldl (fun acc u => insertDesc u acc) acc).Pairwise (ROf rk) := by
  intro l
  induction l with
  | nil => intro acc h _ _; simpa using h
  | cons x rest ih =>
    intro acc hacc hcross hl
    rcases List.pairwise_cons.mp hl with ⟨hx, hrest⟩
    simp only [List.foldl_cons]
    apply ih
    · exact insertDesc_pairwise hacc (fun a ha => hcross a ha x (List.mem_cons_self _ _))
    · intro a ha y hy
      rcases mem_insertDesc.mp ha with rfl | ha'
      · exact hx y hy
      · exact hcross a ha' y (List.mem_cons_of_mem _ hy)
    · exact hrest

theorem sortDesc_pairwise {rk : URow → Nat} {l : List URow}
    (hl : l.Pairwise (fun a b => rk a < rk b)) :
    (sortDesc l).Pairwise (ROf rk) :=
  sortAux_pairwise l [] (by simp) (by simp) hl

theorem mem_sortAux : ∀ (l acc : List URow) (x : URow),
    x ∈ l.foldl (fun acc u => insertDesc u acc) acc ↔ x ∈ acc ∨ x ∈ l := by
  intro l
  induction l with
  | nil => simp
  | cons y rest ih =>
    intro acc x
    simp only [List.foldl_cons, ih, mem_insertDesc, List.mem_cons]
    tauto

theorem mem_sortDesc {l : List URow} {x : URow} : x ∈ sortDesc l ↔ x ∈ l := by
  unfold sortDesc
  rw [mem_sortAux]
  simp

theorem rankIn_cons_self (k : String) (l : List String) : rankIn (k :: l) k = 0 := by
  simp [rankIn]

theorem rankIn_cons_ne {a k : String} (l : List String) (h : a ≠ k) :
    rankIn (a :: l) k = rankIn l k + 1 := by
  simp [rankIn, h]

theorem rankIn_append_not_mem {pre : List String} {k : String} (h : k ∉ pre)
    (l : List String) : rankIn (pre ++ l) k = pre.length + rankIn l k := by
  induction pre with
  | nil => simp
  | cons a rest ih =>
    have ha : a ≠ k := fun e => h (by simp [e])
    have h' : k ∉ rest := fun hm => h (List.mem_cons_of_mem _ hm)
    rw [List.cons_append, rankIn_cons_ne _ ha, ih h']
    simp
    omega

theorem pairwise_rankIn_aux : ∀ (ks pre : List String), (pre ++ ks).Nodup →
    ks.Pairwise (fun x y => rankIn (pre ++ ks) x < rankIn (pre ++ ks) y) := by
  intro ks
  induction ks with
  | nil => intro pre _; exact List.Pairwise.nil
  | cons a rest ih =>
    intro pre hnd
    rcases List.nodup_append.mp hnd with ⟨hpre, hcons, hdisj⟩
    have hanotp : a ∉ pre := fun hm => hdisj hm (List.mem_cons_self _ _)
    have hanotr : a ∉ rest := (List.nodup_cons.mp hcons).1
    refine List.pairwise_cons.mpr ⟨?_, ?_⟩
    · intro b hb
      have hbnotp : b ∉ pre := fun hm => hdisj hm (List.mem_cons_of_mem _ hb)
      have hba : b ≠ a := fun e => hanotr (e ▸ hb)
      rw [rankIn_append_not_mem hanotp, rankIn_append_not_mem hbnotp,
        rankIn_cons_self, rankIn_cons_ne _ (Ne.symm hba)]
      omega
    · have hnd' : ((pre ++ [a]) ++ rest).Nodup := by
        rw [List.append_assoc]
        simpa using hnd
      have := ih (pre ++ [a]) hnd'
      simpa [List.append_assoc] using this

theorem pairwise_rankIn {ks : List String} (h : ks.Nodup) :
    ks.Pairwise (fun x y => rankIn ks x < rankIn ks y) := by
  simpa using pairwise_rankIn_aux ks [] (by simpa using h)

theorem dedup_aux_nodup : ∀ (l acc : List String), acc.Nodup →
    (l.foldl (fun ks k => if k ∈ ks then ks else ks ++ [k]) acc).Nodup := by
  intro l
  induction l with
  | nil => intro acc h; simpa using h
  | cons x rest ih =>
    intro acc hacc
    simp only [List.foldl_cons]
    by_cases hx : x ∈ acc
    · rw [if_pos hx]; exact ih acc hacc
    · rw [if_neg hx]
      refine ih _ (List.nodup_append.mpr ⟨hacc, by simp, ?_⟩)
      intro a ha hmem
      rcases List.mem_singleton.mp hmem with rfl
      exact hx ha

theorem dedupFirstSeen_nodup (l : List String) : (dedupFirstSeen l).Nodup :=
  dedup_aux_nodup l [] List.Pairwise.nil

theorem mem_dedup_aux : ∀ (l acc : List String) (k : String),
    k ∈ l.foldl (fun ks k => if k ∈ ks then ks else ks ++ [k]) acc ↔
      k ∈ acc ∨ k ∈ l := by
  intro l
  induction l with
  | nil => simp
  | cons x rest ih =>
    intro acc k
    simp only [List.foldl_cons]
    by_cases hx : x ∈ acc
    · rw [if_pos hx, ih]
      simp only [List.mem_cons]
      constructor
      · tauto
      · rintro (h | rfl | h) <;> tauto
    · rw [if_neg hx, ih]
      simp only [List.mem_append, List.mem_singleton, List.mem_cons]
      tauto

theorem mem_dedupFirstSeen {l : List String} {k : String} :
    k ∈ dedupFirstSeen l ↔ k ∈ l := by
  unfold dedupFirstSeen
  rw [mem_dedup_aux]
  simp

theorem aggRows_pairwise_rank (ledger : List GRow) (ranch : Option Nat)
    (since : Option Int) :
    (aggRows ledger ranch since).Pairwise
      (fun u v => rankIn (aggKeys ledger ranch since) u.discord_id <
                  rankIn (aggKeys ledger ranch since) v.discord_id) := by
  unfold aggRows
  rw [List.pairwise_map]
  exact pairwise_rankIn (dedupFirstSeen_nodup _)

theorem aggRows_actor_from_ledger {ledger : List GRow} {ranch : Option Nat}
    {since : Option Int} {u : URow} (hu : u ∈ aggRows ledger ranch since) :
    ∃ r ∈ ledger, r.discord_id = some u.discord_id := by
  unfold aggRows at hu
  rcases List.mem_map.mp hu with ⟨k, hk, rfl⟩
  have hk' : k ∈ (aggEligible ledger ranch since).filterMap (fun r => r.discord_id) :=
    mem_dedupFirstSeen.mp hk
  rcases List.mem_filterMap.mp hk' with ⟨r, hr, hrk⟩
  exact ⟨r, (List.mem_filter.mp hr).1, hrk⟩



/-- C8 counterexample: a supplied limit of 0 is mapped to the default 50 by
`getInteger("limit") || 50` rather than clamped into [1, 200]: on a
two-actor ledger the command returns both rows, while the claim's
clamp-to-[1,200] (which sends 0 to 1) would return exactly one. -/
theorem leaderboard_limit_counterexample :
    jsLimit (some 0) = 50 ∧ specClamp 0 = 1 ∧
    (leaderboardCmd demoLedger2 0 none (some 0)).length = 2 ∧
    (topUsers demoLedger2 none none (specClamp 0).toNat).length = 1 := by
  exact ⟨by decide, by decide, by decide, by decide⟩

/-- C8 amended: the leaderboard returns only rows whose actor appears
non-null in the ledger, ordered descending by (eggs + milk) — the query
leaves the relative order of equal totals unspecified, so nothing is
asserted about it — truncated to the effective limit; the limit argument is
clamped to [1, 200] except that an absent or zero argument becomes the
default 50; and with limit 1 a single row of maximal (eggs + milk) total is
returned.  Every conjunct is invariant under permuting groups or equal
totals, so none depends on a tie-order choice in the model. -/
theorem leaderboard_ordering :
    ∀ (ledger : List GRow) (now : Int) (since : Option String) (limitOpt : Option Int),
      (jsLimit limitOpt =
        if limitOpt = none ∨ limitOpt = some 0 then 50
        else max 1 (min 200 (limitOpt.getD 0))) ∧
      (1 ≤ jsLimit limitOpt ∧ jsLimit limitOpt ≤ 200) ∧
      (leaderboardCmd ledger now since limitOpt).length ≤ (jsLimit limitOpt).toNat ∧
      (∀ u ∈ leaderboardCmd ledger now since limitOpt,
        ∃ r ∈ ledger, r.discord_id = some u.discord_id) ∧
      (leaderboardCmd ledger now since limitOpt).Pairwise
        (fun a b => totalOf b ≤ totalOf a) ∧
      (limitOpt = some 1 → aggRows ledger none (parseSinceToTs now since) ≠ [] →
        ∃ u, leaderboardCmd ledger now since limitOpt = [u] ∧
          ∀ w ∈ aggRows ledger none (parseSinceToTs now since),
            totalOf w ≤ totalOf u) := by
  intro ledger now since limitOpt
  refine ⟨?_, ?_, ?_, ?_, ?_, ?_⟩
  · rcases limitOpt with _ | x
    · decide
    · by_cases hx : x = 0
      · simp [jsLimit, hx]
      · simp [jsLimit, hx]
  · rcases limitOpt with _ | x
    · constructor <;> decide
    · by_cases hx : x = 0 <;> simp [jsLimit, hx]
  · simp only [leaderboardCmd, topUsers, List.length_take]
    exact min_le_left _ _
  · intro u hu
    have hu1 : u ∈ sortDesc (aggRows ledger none (parseSinceToTs now since)) :=
      List.mem_of_mem_take hu
    exact aggRows_actor_from_ledger (mem_sortDesc.mp hu1)
  · refine List.Pairwise.sublist (List.take_sublist _ _)
      ((@sortDesc_pairwise
        (fun u => rankIn (aggKeys ledger none (parseSinceToTs now since)) u.discord_id)
        _ (aggRows_pairwise_rank ledger none (parseSinceToTs now since))).imp ?_)
    intro a b hab
    rcases hab with hlt | ⟨heq, _⟩
    · exact Nat.le_of_lt hlt
    · exact Nat.le_of_eq heq.symm
  · intro h1 hne
    subst h1
    cases hs : sortDesc (aggRows ledger none (parseSinceToTs now since)) with
    | nil =>
      exfalso
      apply hne
      cases hagg : aggRows ledger none (parseSinceToTs now since) with
      | nil => rfl
      | cons a tl =>
        exfalso
        have : a ∈ sortDesc (aggRows ledger none (parseSinceToTs now since)) :=
          mem_sortDesc.mpr (by rw [hagg]; exact List.mem_cons_self _ _)
        rw [hs] at this
        exact absurd this (by simp)
    | cons u tl =>
      refine ⟨u, ?_, ?_⟩
      · show (sortDesc (aggRows ledger none (parseSinceToTs now since))).take
          (jsLimit (some 1)).toNat = [u]
        rw [hs]
        rfl
      · intro w hw
        have hw1 : w ∈ sortDesc (aggRows ledger none (parseSinceToTs now since)) :=
          mem_sortDesc.mpr hw
        rw [hs] at hw1
        rcases List.mem_cons.mp hw1 with rfl | hw2
        · exact le_refl _
        · have hp := @sortDesc_pairwise
            (fun u => rankIn (aggKeys ledger none (parseSinceToTs now since)) u.discord_id)
            _ (aggRows_pairwise_rank ledger none (parseSinceToTs now since))
          rw [hs] at hp
          rcases (List.pairwise_cons.mp hp).1 w hw2 with hlt | ⟨heq, _⟩
          · exact Nat.le_of_lt hlt
          · exact Nat.le_of_eq heq.symm

/-- Witness for `leaderboard_ordering` with limit 1 on the two-actor demo
ledger. -/
theorem leaderboard_ordering_witness :
    ∃ u, leaderboardCmd demoLedger2 0 none (some 1) = [u] ∧
      ∀ w ∈ aggRows demoLedger2 none (parseSinceToTs 0 none), totalOf w ≤ totalOf u :=
  (leaderboard_ordering demoLedger2 0 none (some 1)).2.2.2.2.2 rfl (by decide)


end Ranch
